import Mathlib

/-!
Verification of the stochastic-oscillator strategy core
(src/src/stochastic_processing.py, src/src/chart_generator.py).

Shallow embedding conventions:
- A pandas DataFrame is a `Frame`: an ordered association list from column
  name to a column of cells; a cell is `Option Rat`, `none` standing for NaN.
- Python exceptions are modelled by `Except Err`; `Err.isValueError` records
  whether the exception is a `ValueError` (the only class the orchestrator
  catches).
- The external data provider (yfinance via fetch_market_data) is an oracle
  `FetchFn` returning either a frame or an error.
- The stochastic formula itself lives in the external `ta` package
  (ta.momentum.StochasticOscillator), whose source is not part of this
  repository; `rollingOp`, `stoch_k_series` and `stoch_d_series` are modelled
  from the spec formula together with the pandas rolling-window semantics the
  spec describes (window of `w` trailing bars, a value is produced only when
  the window holds `w` defined observations, NaN propagates, and a zero
  denominator leaves the value undefined).
-/

namespace StochStrat

/-- Err models a Python exception; `isValueError` is true exactly for the
`ValueError` class, the only class caught by the orchestrator loop. -/
structure Err where
  isValueError : Bool
  msg : String
deriving DecidableEq, Repr

/-- Frame models a pandas DataFrame: ordered columns, each a list of cells;
a cell is `Option Rat` with `none` standing for NaN. -/
structure Frame where
  cols : List (String × List (Option Rat))
deriving DecidableEq, Repr

/-- Row count of a frame: the length of its first column (pandas keeps all
columns the same length; `wfb` states that invariant). -/
def Frame.nrows (f : Frame) : Nat :=
  match f.cols with
  | [] => 0
  | c :: _ => c.2.length

/-- DataFrame.empty: true when the frame has no columns or no rows. -/
def Frame.isEmptyDF (f : Frame) : Bool := f.cols.isEmpty || f.nrows == 0

/-- Column lookup by name (first match, as in pandas). -/
def Frame.getCol (f : Frame) (name : String) : Option (List (Option Rat)) :=
  f.cols.lookup name

/-- Membership test for a column name. -/
def Frame.hasCol (f : Frame) (name : String) : Bool := (f.getCol name).isSome

/-- Column assignment on the underlying association list: replace the column
in place when the name exists, append it at the end otherwise — the pandas
`df[name] = values` behaviour. -/
def setColList : List (String × List (Option Rat)) → String → List (Option Rat) →
    List (String × List (Option Rat))
  | [], name, vals => [(name, vals)]
  | c :: rest, name, vals =>
    if c.1 = name then (name, vals) :: rest else c :: setColList rest name vals

/-- Column assignment `df[name] = values`. -/
def Frame.setCol (f : Frame) (name : String) (vals : List (Option Rat)) : Frame :=
  ⟨setColList f.cols name vals⟩

/-- Well-formedness: every column has the same length (always true of a real
DataFrame). -/
def Frame.wfb (f : Frame) : Bool := f.cols.all (fun c => c.2.length == f.nrows)

/-- Minimum of a list of rationals (meaningful on non-empty lists). -/
def listMin : List Rat → Rat
  | [] => 0
  | x :: xs => xs.foldl min x

/-- Maximum of a list of rationals (meaningful on non-empty lists). -/
def listMax : List Rat → Rat
  | [] => 0
  | x :: xs => xs.foldl max x

/-- Modelled from the spec: pandas `Series.rolling(window, min_periods=window).op()`
as used by ta.momentum.StochasticOscillator (external package, source not in
this repository). Index `i` looks at the last `window` cells ending at `i`;
the result is defined only when that window carries `window` defined (non-NaN)
observations, and is then `op` of those observations. -/
def rollingOp (op : List Rat → Rat) (window : Nat) (xs : List (Option Rat)) :
    List (Option Rat) :=
  (List.range xs.length).map (fun i =>
    let vals := ((xs.take (i + 1)).drop (i + 1 - window)).filterMap id
    if window ≤ vals.length then some (op vals) else none)

/-- Modelled from the spec: the raw stochastic line of
ta.momentum.StochasticOscillator — 100 * (close - rolling min of low) /
(rolling max of high - rolling min of low), with a NaN operand or a zero
denominator leaving the value undefined. -/
def stoch_k_series (high low close : List (Option Rat)) (window : Nat) :
    List (Option Rat) :=
  let smin := rollingOp listMin window low
  let smax := rollingOp listMax window high
  (List.range close.length).map (fun i =>
    match close.getD i none, smin.getD i none, smax.getD i none with
    | some c, some a, some b =>
      if b - a = 0 then none else some (100 * (c - a) / (b - a))
    | _, _, _ => none)

/-- Modelled from the spec: the smoothed stochastic line of
ta.momentum.StochasticOscillator — the rolling mean of the raw line over
`smooth` observations, defined only when the window holds `smooth` defined
values. -/
def stoch_d_series (kvals : List (Option Rat)) (smooth : Nat) : List (Option Rat) :=
  rollingOp (fun vals => vals.sum / (vals.length : Rat)) smooth kvals

/-- Embedding of calculate_stochastic (src/src/stochastic_processing.py):
validate the input (None or empty frame, then required columns), compute the
two stochastic lines, assign them as columns %K and %D, and return the frame. -/
def calculate_stochastic (data : Option Frame) (k_window d_window : Nat) :
    Except Err Frame :=
  match data with
  | none => Except.error ⟨true, "Input data cannot be empty."⟩
  | some f =>
    if f.isEmptyDF then Except.error ⟨true, "Input data cannot be empty."⟩
    else if !(f.hasCol "High" && f.hasCol "Low" && f.hasCol "Close") then
      Except.error ⟨true, "Input data must contain High, Low, and Close columns."⟩
    else
      let high := (f.getCol "High").getD []
      let low := (f.getCol "Low").getD []
      let close := (f.getCol "Close").getD []
      let kvals := stoch_k_series high low close k_window
      let dvals := stoch_d_series kvals d_window
      Except.ok ((f.setCol "%K" kvals).setCol "%D" dvals)

/-- Embedding of calculate_stochastic at the object level: the heap is a list
of frames, a DataFrame value is a reference (index) into it, and the two
column assignments mutate the referenced frame in place; the function returns
the reference it was given. `none` models passing None. -/
def calculate_stochastic_ref (heap : List Frame) (data : Option Nat)
    (k_window d_window : Nat) : Except Err (List Frame × Nat) :=
  match data with
  | none => Except.error ⟨true, "Input data cannot be empty."⟩
  | some i =>
    match heap[i]? with
    | none => Except.error ⟨true, "Input data cannot be empty."⟩
    | some f =>
      match calculate_stochastic (some f) k_window d_window with
      | Except.error e => Except.error e
      | Except.ok g => Except.ok (heap.set i g, i)

/-- Last %K cell of a frame: `data["%K"].iloc[-1]`. The outer `none` models a
raised exception (KeyError for a missing %K column, IndexError for an empty
column); the inner option is the cell itself (`none` = NaN). -/
def last_k_value (f : Frame) : Option (Option Rat) :=
  match f.getCol "%K" with
  | none => none
  | some col => col.getLast?

/-- Loop of _check_last_candle_condition collecting the last %K cell of every
non-empty frame, in mapping order; `none` models an exception escaping the
loop. -/
def collect_last_k : List (String × Frame) → Option (List (Option Rat))
  | [] => some []
  | p :: rest =>
    if p.2.isEmptyDF then collect_last_k rest
    else
      match last_k_value p.2, collect_last_k rest with
      | some v, some vs => some (v :: vs)
      | _, _ => none

/-- Python comparison `k > c` on a possibly-NaN cell: NaN compares false. -/
def nanGt (v : Option Rat) (c : Rat) : Bool :=
  match v with
  | some q => decide (c < q)
  | none => false

/-- Python comparison `k < c` on a possibly-NaN cell: NaN compares false. -/
def nanLt (v : Option Rat) (c : Rat) : Bool :=
  match v with
  | some q => decide (q < c)
  | none => false

/-- Embedding of _check_last_candle_condition: collect the last %K of every
non-empty frame; with no values the answer is false; otherwise true iff all
values are above 80 or all are below 20. The outer `none` models a raised
exception. -/
def check_last_candle_condition (m : List (String × Frame)) : Option Bool :=
  match collect_last_k m with
  | none => none
  | some vals =>
    if vals.isEmpty then some false
    else some (vals.all (fun v => nanGt v 80) || vals.all (fun v => nanLt v 20))

/-- Args models the argparse.Namespace consumed by run. -/
structure Args where
  symbols : String
  period : String
  intervals : String
  k_window : Nat
  d_window : Nat
  plot_all : Bool
  save_html : Bool

/-- FetchFn is the external provider oracle standing for fetch_market_data
(symbol, period, interval): either a frame or an exception. -/
abbrev FetchFn := String → String → String → Except Err Frame

/-- One loop body of run for a single interval: fetch the market data, then
compute the stochastic columns. -/
def fetch_and_compute (fetch : FetchFn) (args : Args) (symbol interval : String) :
    Except Err Frame :=
  match fetch symbol args.period interval with
  | Except.error e => Except.error e
  | Except.ok md => calculate_stochastic (some md) args.k_window args.d_window

/-- Interval loop of run for one symbol: accumulate per-interval results; a
ValueError stops the loop with the all-processed flag cleared (fail fast); any
other exception propagates. -/
def process_intervals (fetch : FetchFn) (args : Args) (symbol : String) :
    List String → List (String × Frame) → Except Err (List (String × Frame) × Bool)
  | [], acc => Except.ok (acc, true)
  | interval :: rest, acc =>
    match fetch_and_compute fetch args symbol interval with
    | Except.error e =>
      if e.isValueError then Except.ok (acc, false) else Except.error e
    | Except.ok sd => process_intervals fetch args symbol rest (acc ++ [(interval, sd)])

/-- ChartEvent records one call to generate_stochastic_chart made by run. -/
structure ChartEvent where
  symbol : String
  data : List (String × Frame)
  save_html : Bool
deriving DecidableEq

/-- Per-symbol tail of run: after the interval loop, when every interval was
processed and the mapping is non-empty, render iff plot_all is set (evaluated
first, short-circuiting) or the signal evaluator answers true; an exception
out of the evaluator propagates. -/
def process_symbol (fetch : FetchFn) (args : Args) (intervals : List String)
    (symbol : String) : Except Err (List ChartEvent) :=
  match process_intervals fetch args symbol intervals [] with
  | Except.error e => Except.error e
  | Except.ok (d, allOk) =>
    if allOk && !d.isEmpty then
      if args.plot_all then Except.ok [⟨symbol, d, args.save_html⟩]
      else
        match check_last_candle_condition d with
        | none => Except.error ⟨false, "KeyError"⟩
        | some true => Except.ok [⟨symbol, d, args.save_html⟩]
        | some false => Except.ok []
    else Except.ok []

/-- Symbol loop of run: process each symbol in order, concatenating the chart
events; an uncaught exception aborts the whole run. -/
def run_symbols (fetch : FetchFn) (args : Args) (intervals : List String) :
    List String → Except Err (List ChartEvent)
  | [] => Except.ok []
  | s :: rest =>
    match process_symbol fetch args intervals s with
    | Except.error e => Except.error e
    | Except.ok evs =>
      match run_symbols fetch args intervals rest with
      | Except.error e => Except.error e
      | Except.ok evs2 => Except.ok (evs ++ evs2)

/-- Embedding of run: split the comma-separated symbol and interval strings,
strip whitespace, and drive the symbol loop. -/
def run (fetch : FetchFn) (args : Args) : Except Err (List ChartEvent) :=
  run_symbols fetch args
    ((args.intervals.splitOn ",").map (fun s => s.trim))
    ((args.symbols.splitOn ",").map (fun s => s.trim))

/-- Filename derivation of generate_stochastic_chart: the symbol with each
slash replaced by an underscore (Python str.replace on the one-character
pattern). -/
def sanitize_symbol (symbol : String) : String :=
  String.mk (symbol.data.map (fun c => if c = '/' then '_' else c))

/-- ChartOutput is the externally visible action of generate_stochastic_chart:
an HTML file written at a path, or an interactive window. -/
inductive ChartOutput where
  | savedFile (path : String)
  | shown
deriving DecidableEq, Repr

/-- Embedding of the output step of generate_stochastic_chart
(src/src/chart_generator.py lines 83-85 and 189-194): an empty mapping draws
nothing; otherwise with save_only the figure is written to the bare filename
derived from the symbol (a path relative to the current working directory —
the function takes no output-directory argument); otherwise it is shown
interactively. The figure construction itself is pure rendering and is not
modelled. -/
def generate_stochastic_chart (symbol : String) (data_dict : List (String × Frame))
    (save_only : Bool) : Option ChartOutput :=
  if data_dict.isEmpty then none
  else if save_only then
    some (ChartOutput.savedFile (sanitize_symbol symbol ++ "_stochastic_chart.html"))
  else some ChartOutput.shown

/-! Helper lemmas about the association-list frame operations. -/

/-- Looking up the column just assigned returns the assigned values. -/
theorem lookup_setColList_self (l : List (String × List (Option Rat)))
    (n : String) (v : List (Option Rat)) : (setColList l n v).lookup n = some v := by
  induction l with
  | nil => simp [setColList, List.lookup]
  | cons c rest ih =>
    by_cases h : c.1 = n
    · simp [setColList, h, List.lookup]
    · have hbe : (n == c.1) = false := beq_eq_false_iff_ne.mpr (Ne.symm h)
      simp [setColList, h, List.lookup, hbe, ih]

/-- Looking up a different column is unaffected by an assignment. -/
theorem lookup_setColList_ne (l : List (String × List (Option Rat)))
    (n m : String) (v : List (Option Rat)) (h : m ≠ n) :
    (setColList l n v).lookup m = l.lookup m := by
  induction l with
  | nil =>
    have hbe : (m == n) = false := beq_eq_false_iff_ne.mpr h
    simp [setColList, List.lookup, hbe]
  | cons c rest ih =>
    by_cases hc : c.1 = n
    · subst hc
      have hbe : (m == c.1) = false := beq_eq_false_iff_ne.mpr h
      simp [setColList, List.lookup, hbe]
    · by_cases hm : m = c.1
      · have hbe : (m == c.1) = true := beq_iff_eq.mpr hm
        simp [setColList, hc, List.lookup, hbe]
      · have hbe : (m == c.1) = false := beq_eq_false_iff_ne.mpr hm
        simp [setColList, hc, List.lookup, hbe, ih]

/-- Column assignment seen through getCol, same column. -/
theorem getCol_setCol_self (f : Frame) (n : String) (v : List (Option Rat)) :
    (f.setCol n v).getCol n = some v :=
  lookup_setColList_self f.cols n v

/-- Column assignment seen through getCol, another column. -/
theorem getCol_setCol_ne (f : Frame) (n m : String) (v : List (Option Rat))
    (h : m ≠ n) : (f.setCol n v).getCol m = f.getCol m :=
  lookup_setColList_ne f.cols n m v h

/-- Every column of the assigned frame is the assigned one or one of the
original columns. -/
theorem mem_setColList (l : List (String × List (Option Rat)))
    (n : String) (v : List (Option Rat)) (c : String × List (Option Rat))
    (h : c ∈ setColList l n v) : c.2 = v ∨ c ∈ l := by
  induction l with
  | nil =>
    simp only [setColList, List.mem_singleton] at h
    subst h
    exact Or.inl rfl
  | cons hd rest ih =>
    by_cases hc : hd.1 = n
    · simp only [setColList, if_pos hc, List.mem_cons] at h
      rcases h with h | h
      · subst h
        exact Or.inl rfl
      · exact Or.inr (List.mem_cons_of_mem hd h)
    · simp only [setColList, if_neg hc, List.mem_cons] at h
      rcases h with h | h
      · subst h
        exact Or.inr (List.mem_cons_self c rest)
      · rcases ih h with h2 | h2
        · exact Or.inl h2
        · exact Or.inr (List.mem_cons_of_mem hd h2)

/-- Assigning a column whose length matches the row count keeps the row count. -/
theorem nrows_setCol (f : Frame) (n : String) (v : List (Option Rat))
    (h : v.length = f.nrows) : (f.setCol n v).nrows = f.nrows := by
  rcases f with ⟨cols⟩
  cases cols with
  | nil =>
    simp only [Frame.nrows] at h
    simp [Frame.setCol, setColList, Frame.nrows, h]
  | cons c rest =>
    by_cases hc : c.1 = n
    · simp only [Frame.nrows] at h
      simp [Frame.setCol, setColList, hc, Frame.nrows, h]
    · simp [Frame.setCol, setColList, hc, Frame.nrows]

/-- Assigning a column whose length matches the row count keeps the frame
well-formed. -/
theorem wfb_setCol (f : Frame) (n : String) (v : List (Option Rat))
    (hwf : f.wfb = true) (h : v.length = f.nrows) : (f.setCol n v).wfb = true := by
  simp only [Frame.wfb, List.all_eq_true, beq_iff_eq] at hwf ⊢
  intro c hc
  rw [nrows_setCol f n v h]
  have hc2 : c ∈ setColList f.cols n v := hc
  rcases mem_setColList f.cols n v c hc2 with h2 | h2
  · rw [h2]
    exact h
  · exact hwf c h2

/-- Assigned frames keep a non-empty column list. -/
theorem setColList_ne_nil (l : List (String × List (Option Rat)))
    (n : String) (v : List (Option Rat)) : setColList l n v ≠ [] := by
  cases l with
  | nil => simp [setColList]
  | cons c rest =>
    by_cases hc : c.1 = n <;> simp [setColList, hc]

/-! Helper lemmas about list indexing, slices, minima and maxima. -/

/-- Indexing a series built by mapping over an index range. -/
theorem getD_map_range (n i : Nat) (g : Nat → Option Rat) (h : i < n) :
    ((List.range n).map g).getD i none = g i := by
  rw [List.getD_eq_getElem?_getD, List.getElem?_map, List.getElem?_range h]
  rfl

/-- Indexing past the end of a series yields the default. -/
theorem getD_of_length_le (xs : List (Option Rat)) (i : Nat) (h : xs.length ≤ i) :
    xs.getD i none = none := by
  rw [List.getD_eq_getElem?_getD, List.getElem?_eq_none h]
  rfl

/-- Rolling series have the length of their input. -/
theorem length_rollingOp (op : List Rat → Rat) (w : Nat) (xs : List (Option Rat)) :
    (rollingOp op w xs).length = xs.length := by
  simp [rollingOp]

/-- Pointwise description of a rolling series. -/
theorem rollingOp_getD (op : List Rat → Rat) (w : Nat) (xs : List (Option Rat))
    (i : Nat) (h : i < xs.length) :
    (rollingOp op w xs).getD i none =
      (if w ≤ (((xs.take (i + 1)).drop (i + 1 - w)).filterMap id).length
       then some (op (((xs.take (i + 1)).drop (i + 1 - w)).filterMap id))
       else none) := by
  unfold rollingOp
  rw [getD_map_range _ _ _ h]

/-- Collapsing a fully defined column back to its values. -/
theorem filterMap_id_map_some (l : List Rat) : (l.map some).filterMap id = l := by
  simp

/-- Trailing-window slice of a fully defined series. -/
theorem slice_map_some (l : List Rat) (i w : Nat) :
    ((l.map some).take (i + 1)).drop (i + 1 - w) =
      ((l.take (i + 1)).drop (i + 1 - w)).map some := by
  simp [List.map_take, List.map_drop]

/-- Length of the trailing window ending at a valid index. -/
theorem length_slice (l : List Rat) (i w : Nat) (hi : i < l.length) :
    ((l.take (i + 1)).drop (i + 1 - w)).length = min w (i + 1) := by
  simp only [List.length_drop, List.length_take]
  omega

/-- Element at a valid index, as an option. -/
theorem getElem_opt_getD (l : List Rat) (i : Nat) (h : i < l.length) :
    l[i]? = some (l.getD i 0) := by
  rw [List.getElem?_eq_getElem h, List.getD_eq_getElem?_getD, List.getElem?_eq_getElem h]
  rfl

/-- The bar at a valid index belongs to its own trailing window. -/
theorem self_mem_slice (l : List Rat) (i w : Nat) (hi : i < l.length)
    (hw : 1 ≤ w) (hwin : w ≤ i + 1) :
    l.getD i 0 ∈ (l.take (i + 1)).drop (i + 1 - w) := by
  have h1 : ((l.take (i + 1)).drop (i + 1 - w))[w - 1]? = some (l.getD i 0) := by
    rw [List.getElem?_drop]
    have harith : i + 1 - w + (w - 1) = i := by omega
    rw [harith, List.getElem?_take, if_pos (by omega)]
    exact getElem_opt_getD l i hi
  exact List.getElem?_mem h1

/-- Folded minimum is below its initial value. -/
theorem foldl_min_le_init (xs : List Rat) (a : Rat) : xs.foldl min a ≤ a := by
  induction xs generalizing a with
  | nil => exact le_refl a
  | cons x xs ih => exact le_trans (ih (min a x)) (min_le_left a x)

/-- Folded minimum is below every element. -/
theorem foldl_min_le_mem (xs : List Rat) (a x : Rat) (h : x ∈ xs) :
    xs.foldl min a ≤ x := by
  induction xs generalizing a with
  | nil => cases h
  | cons y ys ih =>
    rcases List.mem_cons.mp h with h2 | h2
    · subst h2
      exact le_trans (foldl_min_le_init ys (min a x)) (min_le_right a x)
    · exact ih (min a y) h2

/-- listMin bounds every member from below. -/
theorem listMin_le (l : List Rat) (x : Rat) (h : x ∈ l) : listMin l ≤ x := by
  cases l with
  | nil => cases h
  | cons y ys =>
    rcases List.mem_cons.mp h with h2 | h2
    · subst h2
      exact foldl_min_le_init ys x
    · exact foldl_min_le_mem ys y x h2

/-- Folded maximum is above its initial value. -/
theorem le_foldl_max_init (xs : List Rat) (a : Rat) : a ≤ xs.foldl max a := by
  induction xs generalizing a with
  | nil => exact le_refl a
  | cons x xs ih => exact le_trans (le_max_left a x) (ih (max a x))

/-- Folded maximum is above every element. -/
theorem le_foldl_max_mem (xs : List Rat) (a x : Rat) (h : x ∈ xs) :
    x ≤ xs.foldl max a := by
  induction xs generalizing a with
  | nil => cases h
  | cons y ys ih =>
    rcases List.mem_cons.mp h with h2 | h2
    · subst h2
      exact le_trans (le_max_right a x) (le_foldl_max_init ys (max a x))
    · exact ih (max a y) h2

/-- listMax bounds every member from above. -/
theorem le_listMax (l : List Rat) (x : Rat) (h : x ∈ l) : x ≤ listMax l := by
  cases l with
  | nil => cases h
  | cons y ys =>
    rcases List.mem_cons.mp h with h2 | h2
    · subst h2
      exact le_foldl_max_init ys x
    · exact le_foldl_max_mem ys y x h2

/-! Pointwise characterizations of the stochastic lines. -/

/-- Indexing a fully defined column. -/
theorem map_some_getD (l : List Rat) (i : Nat) (h : i < l.length) :
    (l.map some).getD i none = some (l.getD i 0) := by
  rw [List.getD_eq_getElem?_getD, List.getElem?_map, getElem_opt_getD l i h]
  rfl

/-- Rolling over a fully defined column: defined exactly from the first full
window on, with the value computed on the trailing window. -/
theorem rollingOp_map_some_getD (op : List Rat → Rat) (w : Nat) (l : List Rat)
    (i : Nat) (h : i < l.length) :
    (rollingOp op w (l.map some)).getD i none =
      if w ≤ i + 1 then some (op ((l.take (i + 1)).drop (i + 1 - w))) else none := by
  rw [rollingOp_getD op w (l.map some) i (by simpa using h)]
  rw [slice_map_some, filterMap_id_map_some, length_slice l i w h]
  by_cases hw : w ≤ i + 1
  · rw [if_pos (by omega), if_pos hw]
  · rw [if_neg (by omega), if_neg hw]

/-- Pointwise description of the raw stochastic line over fully defined
price columns. -/
theorem stoch_k_getD (hs ls cs : List Rat) (k n i : Nat)
    (hlh : hs.length = n) (hll : ls.length = n) (hlc : cs.length = n)
    (hi : i < n) :
    (stoch_k_series (hs.map some) (ls.map some) (cs.map some) k).getD i none =
      if k ≤ i + 1 then
        (if listMax ((hs.take (i + 1)).drop (i + 1 - k)) -
              listMin ((ls.take (i + 1)).drop (i + 1 - k)) = 0
         then none
         else some (100 * (cs.getD i 0 - listMin ((ls.take (i + 1)).drop (i + 1 - k))) /
           (listMax ((hs.take (i + 1)).drop (i + 1 - k)) -
             listMin ((ls.take (i + 1)).drop (i + 1 - k)))))
      else none := by
  have hn : (cs.map some).length = n := by simpa using hlc
  simp only [stoch_k_series]
  rw [hn, getD_map_range _ _ _ hi]
  rw [map_some_getD cs i (by omega)]
  rw [rollingOp_map_some_getD listMin k ls i (by omega)]
  rw [rollingOp_map_some_getD listMax k hs i (by omega)]
  by_cases hk : k ≤ i + 1
  · rw [if_pos hk, if_pos hk, if_pos hk]
  · rw [if_neg hk, if_neg hk, if_neg hk]

/-- The filterMap over the identity keeps the length of an all-defined list. -/
theorem filterMap_id_length_of_all_some (w : List (Option Rat))
    (h : ∀ v ∈ w, v ≠ none) : (w.filterMap id).length = w.length := by
  induction w with
  | nil => rfl
  | cons v ws ih =>
    cases v with
    | none => exact absurd rfl (h none (List.mem_cons_self none ws))
    | some q =>
      simp only [List.filterMap_cons, id]
      rw [List.length_cons, List.length_cons, ih]
      intro x hx
      exact h x (List.mem_cons_of_mem (some q) hx)

/-- The filterMap over the identity strictly shrinks a list containing NaN. -/
theorem filterMap_id_length_lt_of_none_mem (w : List (Option Rat))
    (h : none ∈ w) : (w.filterMap id).length < w.length := by
  induction w with
  | nil => cases h
  | cons v ws ih =>
    cases v with
    | none =>
      simp only [List.filterMap_cons, id, List.length_cons]
      exact Nat.lt_succ_of_le (List.length_filterMap_le id ws)
    | some q =>
      have h2 : none ∈ ws := by
        rcases List.mem_cons.mp h with h3 | h3
        · cases h3
        · exact h3
      simp only [List.filterMap_cons, id, List.length_cons]
      exact Nat.succ_lt_succ (ih h2)

/-- Pointwise description of the smoothed stochastic line: the value at i is
the simple moving average of the raw values over the last smoothing-window
positions ending at i, defined exactly when those positions exist and all
carry defined raw values. -/
theorem stoch_d_getD (kv : List (Option Rat)) (d i : Nat) (hd : 1 ≤ d)
    (hi : i < kv.length) :
    (stoch_d_series kv d).getD i none =
      (if d ≤ i + 1 ∧ (∀ v ∈ (kv.drop (i + 1 - d)).take d, v ≠ none)
       then some ((((kv.drop (i + 1 - d)).take d).filterMap id).sum / (d : Rat))
       else none) := by
  rw [stoch_d_series, rollingOp_getD _ d kv i hi]
  have hwin : (kv.take (i + 1)).drop (i + 1 - d) =
      (kv.drop (i + 1 - d)).take ((i + 1) - (i + 1 - d)) := List.drop_take (i + 1) (i + 1 - d) kv
  by_cases hdi : d ≤ i + 1
  · have harith : (i + 1) - (i + 1 - d) = d := by omega
    rw [hwin, harith]
    by_cases hall : ∀ v ∈ (kv.drop (i + 1 - d)).take d, v ≠ none
    · have hlen2 : ((kv.drop (i + 1 - d)).take d).length = d := by
        rw [List.length_take, List.length_drop]
        omega
      have hlen3 : (((kv.drop (i + 1 - d)).take d).filterMap id).length = d := by
        rw [filterMap_id_length_of_all_some _ hall, hlen2]
      rw [if_pos (by omega : d ≤ (((kv.drop (i + 1 - d)).take d).filterMap id).length),
        if_pos ⟨hdi, hall⟩, hlen3]
    · have hnone : none ∈ (kv.drop (i + 1 - d)).take d := by
        by_contra hcon
        exact hall (fun v hv => by
          intro hveq
          subst hveq
          exact hcon hv)
      have hlt : (((kv.drop (i + 1 - d)).take d).filterMap id).length <
          ((kv.drop (i + 1 - d)).take d).length :=
        filterMap_id_length_lt_of_none_mem _ hnone
      have hlen2 : ((kv.drop (i + 1 - d)).take d).length ≤ d := by
        rw [List.length_take]
        omega
      rw [if_neg (by omega), if_neg (by
        intro hcon
        exact hall hcon.2)]
  · have hlen3 : ((kv.take (i + 1)).drop (i + 1 - d)).length ≤ i + 1 := by
      rw [List.length_drop, List.length_take]
      omega
    have hle : (((kv.take (i + 1)).drop (i + 1 - d)).filterMap id).length ≤ i + 1 :=
      le_trans (List.length_filterMap_le id _) hlen3
    rw [if_neg (by omega), if_neg (by
      intro hcon
      exact hdi hcon.1)]

/-! Reduction of calculate_stochastic on valid inputs. -/

/-- A frame with a column has a non-empty column list. -/
theorem cols_ne_nil_of_getCol (f : Frame) (n : String) (v : List (Option Rat))
    (h : f.getCol n = some v) : f.cols ≠ [] := by
  intro hc
  rw [Frame.getCol, hc] at h
  cases h

/-- A frame with columns and rows is not empty. -/
theorem isEmptyDF_eq_false (f : Frame) (hne : f.cols ≠ []) (hnr : f.nrows ≠ 0) :
    f.isEmptyDF = false := by
  simp [Frame.isEmptyDF, hne, hnr]

/-- getCol success gives hasCol. -/
theorem hasCol_of_getCol (f : Frame) (n : String) (v : List (Option Rat))
    (h : f.getCol n = some v) : f.hasCol n = true := by
  simp [Frame.hasCol, h]

/-- On a non-empty frame with the three price columns, calculate_stochastic
succeeds and returns the frame with the two stochastic columns assigned. -/
theorem calculate_stochastic_ok (f : Frame) (k d : Nat)
    (hne : f.isEmptyDF = false) (hH : f.hasCol "High" = true)
    (hL : f.hasCol "Low" = true) (hC : f.hasCol "Close" = true) :
    calculate_stochastic (some f) k d =
      Except.ok ((f.setCol "%K" (stoch_k_series ((f.getCol "High").getD [])
          ((f.getCol "Low").getD []) ((f.getCol "Close").getD []) k)).setCol "%D"
        (stoch_d_series (stoch_k_series ((f.getCol "High").getD [])
          ((f.getCol "Low").getD []) ((f.getCol "Close").getD []) k) d)) := by
  simp [calculate_stochastic, hne, hH, hL, hC]

/-- C1: for every price series carrying High, Low and Close columns of n ≥ 1
bars and positive windows k_window and d_window, calculate_stochastic succeeds
and produces a raw line %K and a smoothed line %D of the same length, where
%K at bar i is undefined for insufficient history (i + 1 < k_window) and
otherwise equals 100 (close i - min low over the trailing k_window window) /
(max high - min low over that window), undefined when that denominator is
zero; %D at bar i is the simple moving average of the %K values over the last
d_window positions ending at i, undefined until d_window defined raw values
exist there; and with fewer than k_window bars every %K value is undefined. -/
theorem stochastic_oscillator_formula (f : Frame) (hs ls cs : List Rat)
    (k d n : Nat) (hk : 1 ≤ k) (hd : 1 ≤ d) (hn : 1 ≤ n)
    (hH : f.getCol "High" = some (hs.map some))
    (hL : f.getCol "Low" = some (ls.map some))
    (hC : f.getCol "Close" = some (cs.map some))
    (hlh : hs.length = n) (hll : ls.length = n) (hlc : cs.length = n)
    (hnr : f.nrows = n) :
    ∃ K D : List (Option Rat),
      (∃ g, calculate_stochastic (some f) k d = Except.ok g ∧
        g.getCol "%K" = some K ∧ g.getCol "%D" = some D) ∧
      K.length = n ∧ D.length = n ∧
      (∀ i, i < n → i + 1 < k → K.getD i none = none) ∧
      (∀ i, i < n → k ≤ i + 1 →
        (listMax ((hs.drop (i + 1 - k)).take k) -
            listMin ((ls.drop (i + 1 - k)).take k) = 0 →
          K.getD i none = none) ∧
        (listMax ((hs.drop (i + 1 - k)).take k) -
            listMin ((ls.drop (i + 1 - k)).take k) ≠ 0 →
          K.getD i none = some (100 * (cs.getD i 0 -
              listMin ((ls.drop (i + 1 - k)).take k)) /
            (listMax ((hs.drop (i + 1 - k)).take k) -
              listMin ((ls.drop (i + 1 - k)).take k))))) ∧
      (∀ i, i < n →
        D.getD i none =
          (if d ≤ i + 1 ∧ (∀ v ∈ (K.drop (i + 1 - d)).take d, v ≠ none)
           then some ((((K.drop (i + 1 - d)).take d).filterMap id).sum / (d : Rat))
           else none)) ∧
      (n < k → ∀ i, K.getD i none = none) := by
  have hcols : f.cols ≠ [] := cols_ne_nil_of_getCol f "High" _ hH
  have hemp : f.isEmptyDF = false := isEmptyDF_eq_false f hcols (by omega)
  have hok := calculate_stochastic_ok f k d hemp (hasCol_of_getCol f "High" _ hH)
    (hasCol_of_getCol f "Low" _ hL) (hasCol_of_getCol f "Close" _ hC)
  rw [hH, hL, hC] at hok
  simp only [Option.getD_some] at hok
  refine ⟨stoch_k_series (hs.map some) (ls.map some) (cs.map some) k,
    stoch_d_series (stoch_k_series (hs.map some) (ls.map some) (cs.map some) k) d,
    ⟨_, hok, ?_, ?_⟩, ?_, ?_, ?_, ?_, ?_, ?_⟩
  · rw [getCol_setCol_ne _ "%D" "%K" _ (by decide), getCol_setCol_self]
  · rw [getCol_setCol_self]
  · simp [stoch_k_series, hlc]
  · simp [stoch_d_series, rollingOp, stoch_k_series, hlc]
  · intro i hi hik
    rw [stoch_k_getD hs ls cs k n i hlh hll hlc hi, if_neg (by omega)]
  · intro i hi hik
    have hwh : (hs.take (i + 1)).drop (i + 1 - k) = (hs.drop (i + 1 - k)).take k := by
      rw [List.drop_take]
      congr 1
      omega
    have hwl : (ls.take (i + 1)).drop (i + 1 - k) = (ls.drop (i + 1 - k)).take k := by
      rw [List.drop_take]
      congr 1
      omega
    constructor
    · intro h0
      rw [stoch_k_getD hs ls cs k n i hlh hll hlc hi, if_pos hik, hwh, hwl, if_pos h0]
    · intro h0
      rw [stoch_k_getD hs ls cs k n i hlh hll hlc hi, if_pos hik, hwh, hwl, if_neg h0]
  · intro i hi
    have hkl : i < (stoch_k_series (hs.map some) (ls.map some) (cs.map some) k).length := by
      simp [stoch_k_series, hlc]
      omega
    rw [stoch_d_getD _ d i hd hkl]
  · intro hnk i
    by_cases hi : i < n
    · rw [stoch_k_getD hs ls cs k n i hlh hll hlc hi, if_neg (by omega)]
    · have hlen : (stoch_k_series (hs.map some) (ls.map some) (cs.map some) k).length ≤ i := by
        simp [stoch_k_series, hlc]
        omega
      exact getD_of_length_le _ i hlen

/-- C1 witness: the formula theorem applied to a concrete one-bar series with
window sizes 1. -/
theorem stochastic_oscillator_formula_witness :
    (1:Nat) ≤ 1 ∧
    (∃ K D : List (Option Rat),
      (∃ g, calculate_stochastic
          (some ⟨[("High", [some 2]), ("Low", [some 1]), ("Close", [some 2])]⟩) 1 1 =
        Except.ok g ∧ g.getCol "%K" = some K ∧ g.getCol "%D" = some D) ∧
      K.length = 1 ∧ D.length = 1 ∧
      (∀ i, i < 1 → i + 1 < 1 → K.getD i none = none) ∧
      (∀ i, i < 1 → 1 ≤ i + 1 →
        (listMax (([(2:Rat)].drop (i + 1 - 1)).take 1) -
            listMin (([(1:Rat)].drop (i + 1 - 1)).take 1) = 0 →
          K.getD i none = none) ∧
        (listMax (([(2:Rat)].drop (i + 1 - 1)).take 1) -
            listMin (([(1:Rat)].drop (i + 1 - 1)).take 1) ≠ 0 →
          K.getD i none = some (100 * ([(2:Rat)].getD i 0 -
              listMin (([(1:Rat)].drop (i + 1 - 1)).take 1)) /
            (listMax (([(2:Rat)].drop (i + 1 - 1)).take 1) -
              listMin (([(1:Rat)].drop (i + 1 - 1)).take 1))))) ∧
      (∀ i, i < 1 →
        D.getD i none =
          (if 1 ≤ i + 1 ∧ (∀ v ∈ (K.drop (i + 1 - 1)).take 1, v ≠ none)
           then some ((((K.drop (i + 1 - 1)).take 1).filterMap id).sum / ((1:Nat) : Rat))
           else none)) ∧
      (1 < 1 → ∀ i, K.getD i none = none)) :=
  ⟨le_refl 1,
    stochastic_oscillator_formula
      ⟨[("High", [some 2]), ("Low", [some 1]), ("Close", [some 2])]⟩
      [2] [1] [2] 1 1 1 (le_refl 1) (le_refl 1) (le_refl 1)
      rfl rfl rfl rfl rfl rfl rfl⟩

/-! Range bounds for the stochastic values. -/

/-- A defined member of a series is the value of the series at some index. -/
theorem mem_getD_of_mem (xs : List (Option Rat)) (v : Rat) (h : some v ∈ xs) :
    ∃ i, i < xs.length ∧ xs.getD i none = some v := by
  obtain ⟨i, hlt, hev⟩ := List.getElem_of_mem h
  refine ⟨i, hlt, ?_⟩
  rw [List.getD_eq_getElem?_getD, List.getElem?_eq_getElem hlt, hev]
  rfl

/-- Every defined raw stochastic value over bars satisfying the full price-bar
invariant low ≤ close ≤ high lies in the closed interval from 0 to 100. -/
theorem stoch_k_mem_bounded (hs ls cs : List Rat) (k n : Nat) (hk : 1 ≤ k)
    (hlh : hs.length = n) (hll : ls.length = n) (hlc : cs.length = n)
    (hbar : ∀ i, i < n → ls.getD i 0 ≤ cs.getD i 0 ∧ cs.getD i 0 ≤ hs.getD i 0)
    (v : Rat)
    (h : some v ∈ stoch_k_series (hs.map some) (ls.map some) (cs.map some) k) :
    0 ≤ v ∧ v ≤ 100 := by
  obtain ⟨i, hil, hiv⟩ := mem_getD_of_mem _ v h
  have hin : i < n := by
    have : (stoch_k_series (hs.map some) (ls.map some) (cs.map some) k).length = n := by
      simp [stoch_k_series, hlc]
    omega
  rw [stoch_k_getD hs ls cs k n i hlh hll hlc hin] at hiv
  by_cases hik : k ≤ i + 1
  · rw [if_pos hik] at hiv
    by_cases h0 : listMax ((hs.take (i + 1)).drop (i + 1 - k)) -
        listMin ((ls.take (i + 1)).drop (i + 1 - k)) = 0
    · rw [if_pos h0] at hiv
      cases hiv
    · rw [if_neg h0] at hiv
      have hveq : v = 100 * (cs.getD i 0 - listMin ((ls.take (i + 1)).drop (i + 1 - k))) /
          (listMax ((hs.take (i + 1)).drop (i + 1 - k)) -
            listMin ((ls.take (i + 1)).drop (i + 1 - k))) := by
        exact (Option.some_inj.mp hiv).symm
      have hmemL : ls.getD i 0 ∈ (ls.take (i + 1)).drop (i + 1 - k) :=
        self_mem_slice ls i k (by omega) hk hik
      have hmemH : hs.getD i 0 ∈ (hs.take (i + 1)).drop (i + 1 - k) :=
        self_mem_slice hs i k (by omega) hk hik
      have ha : listMin ((ls.take (i + 1)).drop (i + 1 - k)) ≤ ls.getD i 0 :=
        listMin_le _ _ hmemL
      have hb : hs.getD i 0 ≤ listMax ((hs.take (i + 1)).drop (i + 1 - k)) :=
        le_listMax _ _ hmemH
      obtain ⟨hbar1, hbar2⟩ := hbar i hin
      have hac : listMin ((ls.take (i + 1)).drop (i + 1 - k)) ≤ cs.getD i 0 := by linarith
      have hcb : cs.getD i 0 ≤ listMax ((hs.take (i + 1)).drop (i + 1 - k)) := by linarith
      have hpos : 0 < listMax ((hs.take (i + 1)).drop (i + 1 - k)) -
          listMin ((ls.take (i + 1)).drop (i + 1 - k)) := by
        rcases lt_or_eq_of_le (by linarith : listMin ((ls.take (i + 1)).drop (i + 1 - k)) ≤
          listMax ((hs.take (i + 1)).drop (i + 1 - k))) with h2 | h2
        · linarith
        · exact absurd (by linarith) h0
      constructor
      · rw [hveq]
        apply div_nonneg (by linarith) (le_of_lt hpos)
      · rw [hveq, div_le_iff₀ hpos]
        linarith
  · rw [if_neg hik] at hiv
    cases hiv

/-- C4 (corrected): with the additional per-bar requirement that each close
lies between its low and its high — the claim assumes only high ≥ low, which
the counterexample shows too weak — every defined %K and %D value lies in the
closed interval from 0 to 100. -/
theorem stochastic_values_bounded (f : Frame) (hs ls cs : List Rat)
    (k d n : Nat) (hk : 1 ≤ k) (hd : 1 ≤ d) (hn : 1 ≤ n)
    (hH : f.getCol "High" = some (hs.map some))
    (hL : f.getCol "Low" = some (ls.map some))
    (hC : f.getCol "Close" = some (cs.map some))
    (hlh : hs.length = n) (hll : ls.length = n) (hlc : cs.length = n)
    (hnr : f.nrows = n)
    (hbar : ∀ i, i < n → ls.getD i 0 ≤ cs.getD i 0 ∧ cs.getD i 0 ≤ hs.getD i 0) :
    ∃ g, calculate_stochastic (some f) k d = Except.ok g ∧
      (∀ v : Rat, some v ∈ (g.getCol "%K").getD [] → 0 ≤ v ∧ v ≤ 100) ∧
      (∀ v : Rat, some v ∈ (g.getCol "%D").getD [] → 0 ≤ v ∧ v ≤ 100) := by
  have hcols : f.cols ≠ [] := cols_ne_nil_of_getCol f "High" _ hH
  have hemp : f.isEmptyDF = false := isEmptyDF_eq_false f hcols (by omega)
  have hok := calculate_stochastic_ok f k d hemp (hasCol_of_getCol f "High" _ hH)
    (hasCol_of_getCol f "Low" _ hL) (hasCol_of_getCol f "Close" _ hC)
  rw [hH, hL, hC] at hok
  simp only [Option.getD_some] at hok
  refine ⟨_, hok, ?_, ?_⟩
  · rw [getCol_setCol_ne _ "%D" "%K" _ (by decide), getCol_setCol_self]
    intro v hv
    exact stoch_k_mem_bounded hs ls cs k n hk hlh hll hlc hbar v hv
  · rw [getCol_setCol_self]
    intro v hv
    simp only [Option.getD_some] at hv
    obtain ⟨i, hil, hiv⟩ := mem_getD_of_mem _ v hv
    have hkn : (stoch_k_series (hs.map some) (ls.map some) (cs.map some) k).length = n := by
      simp [stoch_k_series, hlc]
    have hil2 : i < (stoch_k_series (hs.map some) (ls.map some) (cs.map some) k).length := by
      have : (stoch_d_series (stoch_k_series (hs.map some) (ls.map some)
          (cs.map some) k) d).length =
          (stoch_k_series (hs.map some) (ls.map some) (cs.map some) k).length := by
        simp [stoch_d_series, length_rollingOp]
      omega
    rw [stoch_d_getD _ d i hd hil2] at hiv
    by_cases hcond : d ≤ i + 1 ∧ ∀ v2 ∈ ((stoch_k_series (hs.map some) (ls.map some)
        (cs.map some) k).drop (i + 1 - d)).take d, v2 ≠ none
    · rw [if_pos hcond] at hiv
      have hveq : v = ((((stoch_k_series (hs.map some) (ls.map some)
          (cs.map some) k).drop (i + 1 - d)).take d).filterMap id).sum / (d : Rat) :=
        (Option.some_inj.mp hiv).symm
      have hbnd : ∀ x ∈ (((stoch_k_series (hs.map some) (ls.map some)
          (cs.map some) k).drop (i + 1 - d)).take d).filterMap id, 0 ≤ x ∧ x ≤ 100 := by
        intro x hx
        have hx2 : some x ∈ ((stoch_k_series (hs.map some) (ls.map some)
            (cs.map some) k).drop (i + 1 - d)).take d := by
          rcases List.mem_filterMap.mp hx with ⟨a, ha, haeq⟩
          cases a with
          | none => cases haeq
          | some q =>
            cases haeq
            exact ha
        have hx3 : some x ∈ stoch_k_series (hs.map some) (ls.map some) (cs.map some) k :=
          List.mem_of_mem_drop (List.mem_of_mem_take hx2)
        exact stoch_k_mem_bounded hs ls cs k n hk hlh hll hlc hbar x hx3
      have hwin : (((stoch_k_series (hs.map some) (ls.map some)
          (cs.map some) k).drop (i + 1 - d)).take d).length = d := by
        rw [List.length_take, List.length_drop]
        omega
      have hlen : ((((stoch_k_series (hs.map some) (ls.map some)
          (cs.map some) k).drop (i + 1 - d)).take d).filterMap id).length = d := by
        rw [filterMap_id_length_of_all_some _ hcond.2, hwin]
      have hdpos : (0:Rat) < (d : Rat) := by
        exact_mod_cast hd
      constructor
      · rw [hveq]
        apply div_nonneg _ (le_of_lt hdpos)
        exact List.sum_nonneg (fun x hx => (hbnd x hx).1)
      · rw [hveq, div_le_iff₀ hdpos]
        have hsum := List.sum_le_card_nsmul
          ((((stoch_k_series (hs.map some) (ls.map some)
            (cs.map some) k).drop (i + 1 - d)).take d).filterMap id) 100
          (fun x hx => (hbnd x hx).2)
        rw [nsmul_eq_mul, hlen] at hsum
        linarith
    · rw [if_neg hcond] at hiv
      cases hiv

unseal Rat.inv Rat.mul Rat.add Rat.sub in
/-- C4 counterexample: a one-bar series satisfying the price-bar invariant
high ≥ low (high 10, low 0) but whose close 20 lies above the high produces
the defined value %K = 200, outside the closed interval from 0 to 100. -/
theorem stochastic_values_bounded_cex :
    ((0:Rat) ≤ 10) ∧
    ((calculate_stochastic
        (some ⟨[("High", [some 10]), ("Low", [some 0]), ("Close", [some 20])]⟩) 1 1).toOption.map
      (fun g => (g.getCol "%K", g.getCol "%D"))) =
      some (some [some 200], some [some 200]) ∧
    ¬ ((200:Rat) ≤ 100) := by
  refine ⟨by norm_num, by decide, by norm_num⟩

/-! Shape of the output frame and validation behaviour. -/

/-- A successful lookup result is a member of the association list. -/
theorem mem_of_lookup (l : List (String × List (Option Rat))) (n : String)
    (v : List (Option Rat)) (h : l.lookup n = some v) : (n, v) ∈ l := by
  induction l with
  | nil => cases h
  | cons c rest ih =>
    by_cases hc : n = c.1
    · have hbe : (n == c.1) = true := beq_iff_eq.mpr hc
      simp only [List.lookup, hbe] at h
      have hv : v = c.2 := by
        cases h
        rfl
      rw [hc, hv]
      exact List.mem_cons_self c rest
    · have hbe : (n == c.1) = false := beq_eq_false_iff_ne.mpr hc
      simp only [List.lookup, hbe] at h
      exact List.mem_cons_of_mem c (ih h)

/-- In a well-formed frame every column has the row count as its length. -/
theorem col_length_of_wfb (f : Frame) (n : String) (v : List (Option Rat))
    (hwf : f.wfb = true) (h : f.getCol n = some v) : v.length = f.nrows := by
  have hm : (n, v) ∈ f.cols := mem_of_lookup f.cols n v h
  simp only [Frame.wfb, List.all_eq_true, beq_iff_eq] at hwf
  exact hwf (n, v) hm

/-- Successful calculate_stochastic output: same row count, well-formed, both
stochastic columns present, every other column untouched. -/
theorem calculate_stochastic_shape (f : Frame) (k d : Nat) (g : Frame)
    (hwf : f.wfb = true)
    (h : calculate_stochastic (some f) k d = Except.ok g) :
    g.nrows = f.nrows ∧ g.wfb = true ∧ g.cols ≠ [] ∧
    g.hasCol "%K" = true ∧ g.hasCol "%D" = true ∧
    (∀ name, name ≠ "%K" → name ≠ "%D" → g.getCol name = f.getCol name) ∧
    (∃ kv, g.getCol "%K" = some kv ∧ kv.length = f.nrows) := by
  by_cases hemp : f.isEmptyDF = true
  · simp [calculate_stochastic, hemp] at h
  · by_cases hcols : (f.hasCol "High" && f.hasCol "Low" && f.hasCol "Close") = true
    · have hco : calculate_stochastic (some f) k d =
          Except.ok ((f.setCol "%K" (stoch_k_series ((f.getCol "High").getD [])
              ((f.getCol "Low").getD []) ((f.getCol "Close").getD []) k)).setCol "%D"
            (stoch_d_series (stoch_k_series ((f.getCol "High").getD [])
              ((f.getCol "Low").getD []) ((f.getCol "Close").getD []) k) d)) :=
        calculate_stochastic_ok f k d (by simpa using hemp)
          (by simp at hcols; exact hcols.1.1) (by simp at hcols; exact hcols.1.2)
          (by simp at hcols; exact hcols.2)
      rw [hco] at h
      have hg : g = (f.setCol "%K" (stoch_k_series ((f.getCol "High").getD [])
          ((f.getCol "Low").getD []) ((f.getCol "Close").getD []) k)).setCol "%D"
        (stoch_d_series (stoch_k_series ((f.getCol "High").getD [])
          ((f.getCol "Low").getD []) ((f.getCol "Close").getD []) k) d) := by
        cases h
        rfl
      have hclose : f.hasCol "Close" = true := by
        simp at hcols
        exact hcols.2
      obtain ⟨cl, hcl⟩ := Option.isSome_iff_exists.mp (by
        simpa [Frame.hasCol] using hclose)
      have hcllen : cl.length = f.nrows := col_length_of_wfb f "Close" cl hwf hcl
      have hklen : (stoch_k_series ((f.getCol "High").getD [])
          ((f.getCol "Low").getD []) ((f.getCol "Close").getD []) k).length = f.nrows := by
        rw [hcl]
        simp [stoch_k_series, hcllen]
      have hdlen : (stoch_d_series (stoch_k_series ((f.getCol "High").getD [])
          ((f.getCol "Low").getD []) ((f.getCol "Close").getD []) k) d).length = f.nrows := by
        rw [stoch_d_series, length_rollingOp, hklen]
      have hn1 : (f.setCol "%K" (stoch_k_series ((f.getCol "High").getD [])
          ((f.getCol "Low").getD []) ((f.getCol "Close").getD []) k)).nrows = f.nrows :=
        nrows_setCol f "%K" _ hklen
      have hn2 : g.nrows = f.nrows := by
        rw [hg, nrows_setCol _ "%D" _ (by rw [hdlen, hn1]), hn1]
      refine ⟨hn2, ?_, ?_, ?_, ?_, ?_, ?_⟩
      · rw [hg]
        exact wfb_setCol _ "%D" _ (wfb_setCol f "%K" _ hwf hklen) (by rw [hdlen, hn1])
      · rw [hg]
        exact setColList_ne_nil _ "%D" _
      · rw [hg, Frame.hasCol, getCol_setCol_ne _ "%D" "%K" _ (by decide),
          getCol_setCol_self]
        rfl
      · rw [hg, Frame.hasCol, getCol_setCol_self]
        rfl
      · intro name hnk hnd
        rw [hg, getCol_setCol_ne _ "%D" name _ hnd, getCol_setCol_ne _ "%K" name _ hnk]
      · refine ⟨_, ?_, hklen⟩
        rw [hg, getCol_setCol_ne _ "%D" "%K" _ (by decide), getCol_setCol_self]
    · simp [calculate_stochastic, hemp, hcols] at h

/-- C7: calculate_stochastic raises a ValueError exactly when the input series
is absent or empty or lacks one of the High, Low, Close columns; on every
other well-formed input it succeeds and returns a series of the same length
and row order, with every pre-existing column preserved and the two
stochastic columns present. -/
theorem calculate_stochastic_validation (od : Option Frame) (k d : Nat)
    (hwf : ∀ f, od = some f → f.wfb = true) :
    ((∃ e, calculate_stochastic od k d = Except.error e ∧ e.isValueError = true) ↔
      (od = none ∨ ∃ f, od = some f ∧ (f.isEmptyDF = true ∨
        (f.hasCol "High" && f.hasCol "Low" && f.hasCol "Close") = false))) ∧
    (∀ f, od = some f → f.isEmptyDF = false →
      (f.hasCol "High" && f.hasCol "Low" && f.hasCol "Close") = true →
      ∃ g, calculate_stochastic od k d = Except.ok g ∧ g.nrows = f.nrows ∧
        g.hasCol "%K" = true ∧ g.hasCol "%D" = true ∧
        (∀ name, name ≠ "%K" → name ≠ "%D" → g.getCol name = f.getCol name)) := by
  constructor
  · cases od with
    | none =>
      constructor
      · intro _
        exact Or.inl rfl
      · intro _
        exact ⟨⟨true, "Input data cannot be empty."⟩, rfl, rfl⟩
    | some f =>
      constructor
      · intro ⟨e, he, _⟩
        refine Or.inr ⟨f, rfl, ?_⟩
        by_cases hemp : f.isEmptyDF = true
        · exact Or.inl hemp
        · by_cases hcols : (f.hasCol "High" && f.hasCol "Low" && f.hasCol "Close") = true
          · exfalso
            have hco := calculate_stochastic_ok f k d (by simpa using hemp)
              (by simp at hcols; exact hcols.1.1) (by simp at hcols; exact hcols.1.2)
              (by simp at hcols; exact hcols.2)
            rw [hco] at he
            cases he
          · exact Or.inr (by simpa using hcols)
      · intro h
        rcases h with h | ⟨f2, hf2, hcase⟩
        · cases h
        · have hff : f2 = f := (Option.some_inj.mp hf2).symm
          rw [hff] at hcase
          rcases hcase with h | h
          · refine ⟨⟨true, "Input data cannot be empty."⟩, ?_, rfl⟩
            simp [calculate_stochastic, h]
          · by_cases hemp : f.isEmptyDF = true
            · refine ⟨⟨true, "Input data cannot be empty."⟩, ?_, rfl⟩
              simp [calculate_stochastic, hemp]
            · refine ⟨⟨true, "Input data must contain High, Low, and Close columns."⟩, ?_, rfl⟩
              simp only [calculate_stochastic]
              rw [if_neg (show ¬ f.isEmptyDF = true by simpa using hemp)]
              rw [if_pos (show (!(f.hasCol "High" && f.hasCol "Low" && f.hasCol "Close")) = true
                by simp [h])]
  · intro f hf hemp hcols
    have hwf2 : f.wfb = true := hwf f hf
    have hco := calculate_stochastic_ok f k d hemp
      (by simp at hcols; exact hcols.1.1) (by simp at hcols; exact hcols.1.2)
      (by simp at hcols; exact hcols.2)
    subst hf
    obtain ⟨hn, _, _, hk2, hd2, hpres, _⟩ :=
      calculate_stochastic_shape f k d _ hwf2 hco
    exact ⟨_, hco, hn, hk2, hd2, hpres⟩

/-- C7 witness: the validation theorem applied to a concrete one-bar frame. -/
theorem calculate_stochastic_validation_witness :
    (((∃ e, calculate_stochastic
          (some ⟨[("High", [some 2]), ("Low", [some 1]), ("Close", [some 2])]⟩) 14 3 =
        Except.error e ∧ e.isValueError = true) ↔
      (some (⟨[("High", [some 2]), ("Low", [some 1]), ("Close", [some 2])]⟩ : Frame) = none ∨
        ∃ f, some (⟨[("High", [some 2]), ("Low", [some 1]), ("Close", [some 2])]⟩ : Frame) =
            some f ∧
          (f.isEmptyDF = true ∨
            (f.hasCol "High" && f.hasCol "Low" && f.hasCol "Close") = false))) ∧
    (∀ f, some (⟨[("High", [some 2]), ("Low", [some 1]), ("Close", [some 2])]⟩ : Frame) =
        some f →
      f.isEmptyDF = false →
      (f.hasCol "High" && f.hasCol "Low" && f.hasCol "Close") = true →
      ∃ g, calculate_stochastic
          (some ⟨[("High", [some 2]), ("Low", [some 1]), ("Close", [some 2])]⟩) 14 3 =
        Except.ok g ∧ g.nrows = f.nrows ∧
        g.hasCol "%K" = true ∧ g.hasCol "%D" = true ∧
        (∀ name, name ≠ "%K" → name ≠ "%D" → g.getCol name = f.getCol name))) :=
  calculate_stochastic_validation
    (some ⟨[("High", [some 2]), ("Low", [some 1]), ("Close", [some 2])]⟩) 14 3
    (fun f hf => by
      cases hf
      rfl)

/-- C4 witness: the bound theorem applied to a concrete one-bar series whose
close lies between low and high. -/
theorem stochastic_values_bounded_witness :
    ∃ g, calculate_stochastic
        (some ⟨[("High", [some 2]), ("Low", [some 1]), ("Close", [some 2])]⟩) 1 1 =
      Except.ok g ∧
      (∀ v : Rat, some v ∈ (g.getCol "%K").getD [] → 0 ≤ v ∧ v ≤ 100) ∧
      (∀ v : Rat, some v ∈ (g.getCol "%D").getD [] → 0 ≤ v ∧ v ≤ 100) :=
  stochastic_values_bounded
    ⟨[("High", [some 2]), ("Low", [some 1]), ("Close", [some 2])]⟩
    [2] [1] [2] 1 1 1 (le_refl 1) (le_refl 1) (le_refl 1)
    rfl rfl rfl rfl rfl rfl rfl
    (by
      intro i hi
      have h0 : i = 0 := by omega
      subst h0
      constructor
      · show (1:Rat) ≤ 2
        norm_num
      · show (2:Rat) ≤ 2
        norm_num)

/-! In-place behaviour of calculate_stochastic at the object level. -/

/-- C9 (corrected): calculate_stochastic returns the very reference it was
given and mutates that frame in place, leaving every other heap object
intact; the referenced frame keeps its row count, order, and every
pre-existing column other than %K and %D — the claim additionally asserted
that every pre-existing column is preserved, which the counterexample
refutes for a frame that already carries a %K column. -/
theorem calculate_stochastic_in_place (heap : List Frame) (i : Nat) (f : Frame)
    (k d : Nat) (st2 : List Frame) (j : Nat)
    (hf : heap[i]? = some f) (hwf : f.wfb = true)
    (h : calculate_stochastic_ref heap (some i) k d = Except.ok (st2, j)) :
    j = i ∧ (∀ i2, i2 ≠ i → st2[i2]? = heap[i2]?) ∧
    ∃ g, st2[i]? = some g ∧ calculate_stochastic (some f) k d = Except.ok g ∧
      g.nrows = f.nrows ∧
      (∀ name, name ≠ "%K" → name ≠ "%D" → g.getCol name = f.getCol name) ∧
      g.hasCol "%K" = true ∧ g.hasCol "%D" = true := by
  have hlt : i < heap.length := by
    by_contra hcon
    rw [List.getElem?_eq_none (by omega)] at hf
    cases hf
  simp only [calculate_stochastic_ref, hf] at h
  cases hc : calculate_stochastic (some f) k d with
  | error e =>
    rw [hc] at h
    cases h
  | ok g =>
    rw [hc] at h
    have hst : st2 = heap.set i g ∧ j = i := by
      cases h
      exact ⟨rfl, rfl⟩
    obtain ⟨hst2, hj⟩ := hst
    obtain ⟨hn, _, _, hk2, hd2, hpres, _⟩ := calculate_stochastic_shape f k d g hwf hc
    refine ⟨hj, ?_, g, ?_, rfl, hn, hpres, hk2, hd2⟩
    · intro i2 hi2
      rw [hst2]
      exact List.getElem?_set_ne (Ne.symm hi2)
    · rw [hst2]
      exact List.getElem?_set_self hlt

unseal Rat.inv Rat.mul Rat.add Rat.sub in
/-- C9 counterexample: on a frame that already carries a %K column (value 42),
calculate_stochastic overwrites that pre-existing column in place with the
computed raw line (value 100), so not every pre-existing column of the input
is left unchanged. -/
theorem calculate_stochastic_in_place_cex :
    ((calculate_stochastic_ref
        [⟨[("High", [some 10]), ("Low", [some 0]), ("Close", [some 10]),
          ("%K", [some 42])]⟩] (some 0) 1 1).toOption.map
      (fun p => (p.1.map (fun g2 => g2.getCol "%K"), p.2)))
      = some ([some [some 100]], 0) ∧
    (⟨[("High", [some 10]), ("Low", [some 0]), ("Close", [some 10]),
        ("%K", [some 42])]⟩ : Frame).getCol "%K" = some [some 42] ∧
    ¬ (some [some (100:Rat)] = some [some (42:Rat)]) := by
  refine ⟨by decide, by decide, by decide⟩

unseal Rat.inv Rat.mul Rat.add Rat.sub in
/-- C9 witness: the in-place theorem applied to a one-frame heap. -/
theorem calculate_stochastic_in_place_witness :
    (0:Nat) = 0 ∧ (∀ i2 : Nat, i2 ≠ 0 →
      ([(⟨[("High", [some 2]), ("Low", [some 1]), ("Close", [some 2]), ("%K", [some 100]),
          ("%D", [some 100])]⟩ : Frame)])[i2]? =
      ([(⟨[("High", [some 2]), ("Low", [some 1]), ("Close", [some 2])]⟩ : Frame)])[i2]?) ∧
    ∃ g, ([(⟨[("High", [some 2]), ("Low", [some 1]), ("Close", [some 2]), ("%K", [some 100]),
          ("%D", [some 100])]⟩ : Frame)])[(0:Nat)]? = some g ∧
      calculate_stochastic
          (some ⟨[("High", [some 2]), ("Low", [some 1]), ("Close", [some 2])]⟩) 1 1 =
        Except.ok g ∧
      g.nrows = (⟨[("High", [some 2]), ("Low", [some 1]),
        ("Close", [some 2])]⟩ : Frame).nrows ∧
      (∀ name, name ≠ "%K" → name ≠ "%D" →
        g.getCol name = (⟨[("High", [some 2]), ("Low", [some 1]),
          ("Close", [some 2])]⟩ : Frame).getCol name) ∧
      g.hasCol "%K" = true ∧ g.hasCol "%D" = true :=
  calculate_stochastic_in_place
    [⟨[("High", [some 2]), ("Low", [some 1]), ("Close", [some 2])]⟩] 0
    ⟨[("High", [some 2]), ("Low", [some 1]), ("Close", [some 2])]⟩ 1 1
    [⟨[("High", [some 2]), ("Low", [some 1]), ("Close", [some 2]), ("%K", [some 100]),
      ("%D", [some 100])]⟩] 0 rfl rfl rfl

/-! Signal evaluator: characterization and totality. -/

/-- Claim-side description of the collected values: the most recent %K cell
of each non-empty series, in mapping order. -/
def specVals (m : List (String × Frame)) : List (Option Rat) :=
  (m.filter (fun p => !p.2.isEmptyDF)).map (fun p => (last_k_value p.2).getD none)

/-- When every non-empty series yields a last %K cell, the collection loop
terminates normally and gathers exactly the claim-side values. -/
theorem collect_last_k_eq_specVals (m : List (String × Frame))
    (h : ∀ p ∈ m, p.2.isEmptyDF = false → (last_k_value p.2).isSome = true) :
    collect_last_k m = some (specVals m) := by
  induction m with
  | nil => rfl
  | cons p rest ih =>
    have hrest := ih (fun q hq => h q (List.mem_cons_of_mem p hq))
    by_cases hemp : p.2.isEmptyDF = true
    · simp [collect_last_k, hemp, specVals, List.filter_cons, hrest]
    · have hsome := h p (List.mem_cons_self p rest) (by simpa using hemp)
      obtain ⟨v, hv⟩ := Option.isSome_iff_exists.mp hsome
      simp [collect_last_k, hemp, hv, hrest, specVals, List.filter_cons]

/-- The evaluator in one closed form: false on an empty collection, otherwise
the unanimity test. -/
theorem check_last_candle_eq (m : List (String × Frame))
    (h : ∀ p ∈ m, p.2.isEmptyDF = false → (last_k_value p.2).isSome = true) :
    check_last_candle_condition m =
      some (!(specVals m).isEmpty &&
        ((specVals m).all (fun v => nanGt v 80) ||
          (specVals m).all (fun v => nanLt v 20))) := by
  rw [check_last_candle_condition, collect_last_k_eq_specVals m h]
  by_cases he : (specVals m).isEmpty = true
  · simp [he]
  · simp [he]

/-- C2: the evaluator answers true exactly when the collection of most
recent %K values from the non-empty series is itself non-empty and either
every value exceeds 80 or every value is below 20; an empty mapping, or one
whose series are all empty, answers false, and any mix of directions answers
false. -/
theorem check_last_candle_condition_iff (m : List (String × Frame))
    (h : ∀ p ∈ m, p.2.isEmptyDF = false → (last_k_value p.2).isSome = true) :
    (check_last_candle_condition m = some true ↔
      specVals m ≠ [] ∧ ((∀ v ∈ specVals m, nanGt v 80 = true) ∨
        (∀ v ∈ specVals m, nanLt v 20 = true))) ∧
    (m = [] → check_last_candle_condition m = some false) ∧
    ((∀ p ∈ m, p.2.isEmptyDF = true) → check_last_candle_condition m = some false) ∧
    ((∃ v ∈ specVals m, nanGt v 80 = false) → (∃ v ∈ specVals m, nanLt v 20 = false) →
      check_last_candle_condition m = some false) := by
  refine ⟨?_, ?_, ?_, ?_⟩
  · rw [check_last_candle_eq m h]
    constructor
    · intro hsome
      have hb := Option.some_inj.mp hsome
      simp only [Bool.and_eq_true, Bool.or_eq_true, Bool.not_eq_true',
        List.all_eq_true] at hb
      refine ⟨?_, ?_⟩
      · intro hnil
        rw [hnil] at hb
        cases hb.1
      · rcases hb.2 with h2 | h2
        · exact Or.inl h2
        · exact Or.inr h2
    · intro ⟨hne, hall⟩
      have he : (specVals m).isEmpty = false := by
        cases hev : (specVals m) with
        | nil => exact absurd hev hne
        | cons a l => rfl
      rcases hall with h2 | h2
      · simp [he, List.all_eq_true]
        exact Or.inl h2
      · simp [he, List.all_eq_true]
        exact Or.inr h2
  · intro hm
    subst hm
    rfl
  · intro hall
    rw [check_last_candle_eq m h]
    have hsv : specVals m = [] := by
      rw [specVals]
      have hfil : List.filter (fun p => !p.2.isEmptyDF) m = [] := by
        rw [List.filter_eq_nil_iff]
        intro p hp
        simp [hall p hp]
      rw [hfil]
      rfl
    simp [hsv]
  · intro ⟨v1, hv1, hgt⟩ ⟨v2, hv2, hlt⟩
    rw [check_last_candle_eq m h]
    have h1 : (specVals m).all (fun v => nanGt v 80) = false := by
      cases hall : (specVals m).all (fun v => nanGt v 80) with
      | false => rfl
      | true => exact absurd (List.all_eq_true.mp hall v1 hv1) (by simp [hgt])
    have h2 : (specVals m).all (fun v => nanLt v 20) = false := by
      cases hall : (specVals m).all (fun v => nanLt v 20) with
      | false => rfl
      | true => exact absurd (List.all_eq_true.mp hall v2 hv2) (by simp [hlt])
    simp [h1, h2]

unseal Rat.inv Rat.mul Rat.add Rat.sub in
/-- C2 witness: the characterization applied to a concrete two-interval
mapping with both latest %K values above 80. -/
theorem check_last_candle_condition_iff_witness :
    (check_last_candle_condition
        [("1h", ⟨[("%K", [some 85])]⟩), ("4h", ⟨[("%K", [some 90])]⟩)] = some true ↔
      specVals [("1h", ⟨[("%K", [some 85])]⟩), ("4h", ⟨[("%K", [some 90])]⟩)] ≠ [] ∧
        ((∀ v ∈ specVals [("1h", ⟨[("%K", [some 85])]⟩), ("4h", ⟨[("%K", [some 90])]⟩)],
            nanGt v 80 = true) ∨
          (∀ v ∈ specVals [("1h", ⟨[("%K", [some 85])]⟩), ("4h", ⟨[("%K", [some 90])]⟩)],
            nanLt v 20 = true))) ∧
    ([("1h", (⟨[("%K", [some 85])]⟩ : Frame)), ("4h", ⟨[("%K", [some 90])]⟩)] = [] →
      check_last_candle_condition
        [("1h", ⟨[("%K", [some 85])]⟩), ("4h", ⟨[("%K", [some 90])]⟩)] = some false) ∧
    ((∀ p ∈ [("1h", (⟨[("%K", [some 85])]⟩ : Frame)), ("4h", ⟨[("%K", [some 90])]⟩)],
        p.2.isEmptyDF = true) →
      check_last_candle_condition
        [("1h", ⟨[("%K", [some 85])]⟩), ("4h", ⟨[("%K", [some 90])]⟩)] = some false) ∧
    ((∃ v ∈ specVals [("1h", ⟨[("%K", [some 85])]⟩), ("4h", ⟨[("%K", [some 90])]⟩)],
        nanGt v 80 = false) →
      (∃ v ∈ specVals [("1h", ⟨[("%K", [some 85])]⟩), ("4h", ⟨[("%K", [some 90])]⟩)],
        nanLt v 20 = false) →
      check_last_candle_condition
        [("1h", ⟨[("%K", [some 85])]⟩), ("4h", ⟨[("%K", [some 90])]⟩)] = some false) :=
  check_last_candle_condition_iff
    [("1h", ⟨[("%K", [some 85])]⟩), ("4h", ⟨[("%K", [some 90])]⟩)] (by decide)

/-- C10: on every mapping of well-formed series in which each non-empty series
carries a %K column, the evaluator terminates normally (it never raises), and
whenever some contributing series has an undefined (NaN) most recent %K value
the answer is false, since NaN satisfies neither comparison. -/
theorem check_last_candle_condition_total (m : List (String × Frame))
    (h : ∀ p ∈ m, p.2.isEmptyDF = false → (last_k_value p.2).isSome = true) :
    (check_last_candle_condition m).isSome = true ∧
    (∀ p ∈ m, p.2.isEmptyDF = false → last_k_value p.2 = some none →
      check_last_candle_condition m = some false) := by
  constructor
  · rw [check_last_candle_eq m h]
    rfl
  · intro p hp hemp hnan
    have hmem : (none : Option Rat) ∈ specVals m := by
      apply List.mem_map.mpr
      refine ⟨p, ?_, ?_⟩
      · exact List.mem_filter.mpr ⟨hp, by simp [hemp]⟩
      · rw [hnan]
        rfl
    rw [check_last_candle_eq m h]
    have h1 : (specVals m).all (fun v => nanGt v 80) = false := by
      cases hall : (specVals m).all (fun v => nanGt v 80) with
      | false => rfl
      | true => exact absurd (List.all_eq_true.mp hall none hmem) (by simp [nanGt])
    have h2 : (specVals m).all (fun v => nanLt v 20) = false := by
      cases hall : (specVals m).all (fun v => nanLt v 20) with
      | false => rfl
      | true => exact absurd (List.all_eq_true.mp hall none hmem) (by simp [nanLt])
    simp [h1, h2]

unseal Rat.inv Rat.mul Rat.add Rat.sub in
/-- C10 witness: the totality theorem applied to a mapping whose single
series has a NaN most recent %K value. -/
theorem check_last_candle_condition_total_witness :
    (check_last_candle_condition [("1h", ⟨[("%K", [(none : Option Rat)])]⟩)]).isSome = true ∧
    (∀ p ∈ [("1h", (⟨[("%K", [(none : Option Rat)])]⟩ : Frame))],
      p.2.isEmptyDF = false → last_k_value p.2 = some none →
      check_last_candle_condition [("1h", ⟨[("%K", [(none : Option Rat)])]⟩)] = some false) :=
  check_last_candle_condition_total [("1h", ⟨[("%K", [(none : Option Rat)])]⟩)] (by decide)

/-! Orchestrator lemmas. -/

/-- A prefix of intervals that all succeed only extends the accumulator. -/
theorem process_intervals_append (fetch : FetchFn) (args : Args) (s : String)
    (l1 : List String)
    (h1 : ∀ iv ∈ l1, ∃ g, fetch_and_compute fetch args s iv = Except.ok g) :
    ∀ acc, ∃ acc2, ∀ rest, process_intervals fetch args s (l1 ++ rest) acc =
      process_intervals fetch args s rest acc2 := by
  induction l1 with
  | nil =>
    intro acc
    exact ⟨acc, fun rest => rfl⟩
  | cons iv l1 ih =>
    intro acc
    obtain ⟨g, hg⟩ := h1 iv (List.mem_cons_self iv l1)
    obtain ⟨acc2, hacc2⟩ :=
      ih (fun iv2 hiv2 => h1 iv2 (List.mem_cons_of_mem iv hiv2)) (acc ++ [(iv, g)])
    refine ⟨acc2, fun rest => ?_⟩
    rw [List.cons_append]
    simp only [process_intervals, hg]
    exact hacc2 rest

/-- Every accumulated entry of a completed interval loop is an original
accumulator entry or the output of a successful fetch and computation. -/
theorem process_intervals_entries (fetch : FetchFn) (args : Args) (s : String) :
    ∀ (ivs : List String) (acc d : List (String × Frame)) (flag : Bool),
      process_intervals fetch args s ivs acc = Except.ok (d, flag) →
      ∀ p ∈ d, p ∈ acc ∨ ∃ md, fetch s args.period p.1 = Except.ok md ∧
        calculate_stochastic (some md) args.k_window args.d_window = Except.ok p.2 := by
  intro ivs
  induction ivs with
  | nil =>
    intro acc d flag h p hp
    simp only [process_intervals] at h
    cases h
    exact Or.inl hp
  | cons iv rest ih =>
    intro acc d flag h p hp
    simp only [process_intervals] at h
    cases hfc : fetch_and_compute fetch args s iv with
    | error e =>
      rw [hfc] at h
      by_cases hve : e.isValueError = true
      · simp only [hve, if_true] at h
        cases h
        exact Or.inl hp
      · simp [hve] at h
    | ok sd =>
      rw [hfc] at h
      rcases ih (acc ++ [(iv, sd)]) d flag h p hp with hin | hex
      · rcases List.mem_append.mp hin with hin2 | hin2
        · exact Or.inl hin2
        · right
          have hp2 : p = (iv, sd) := by simpa using hin2
          subst hp2
          unfold fetch_and_compute at hfc
          cases hm : fetch s args.period iv with
          | error e =>
            rw [hm] at hfc
            cases hfc
          | ok md =>
            rw [hm] at hfc
            exact ⟨md, rfl, hfc⟩
      · exact Or.inr hex

/-- A fully successful interval loop accumulates one entry per interval. -/
theorem process_intervals_ok_length (fetch : FetchFn) (args : Args) (s : String) :
    ∀ (ivs : List String) (acc d : List (String × Frame)),
      process_intervals fetch args s ivs acc = Except.ok (d, true) →
      d.length = acc.length + ivs.length := by
  intro ivs
  induction ivs with
  | nil =>
    intro acc d h
    simp only [process_intervals] at h
    cases h
    simp
  | cons iv rest ih =>
    intro acc d h
    simp only [process_intervals] at h
    cases hfc : fetch_and_compute fetch args s iv with
    | error e =>
      rw [hfc] at h
      by_cases hve : e.isValueError = true
      · simp only [hve, if_true, Except.ok.injEq, Prod.mk.injEq] at h
        cases h.2
      · simp [hve] at h
    | ok sd =>
      rw [hfc] at h
      have := ih (acc ++ [(iv, sd)]) d h
      rw [this, List.length_append]
      simp
      omega

/-- Every error calculate_stochastic raises is a ValueError. -/
theorem calculate_stochastic_error_ve (od : Option Frame) (k d : Nat) (e : Err)
    (h : calculate_stochastic od k d = Except.error e) : e.isValueError = true := by
  cases od with
  | none =>
    cases h
    rfl
  | some f =>
    by_cases hemp : f.isEmptyDF = true
    · simp only [calculate_stochastic, hemp, if_true] at h
      cases h
      rfl
    · by_cases hcols : (f.hasCol "High" && f.hasCol "Low" && f.hasCol "Close") = true
      · have hco := calculate_stochastic_ok f k d (by simpa using hemp)
          (by simp at hcols; exact hcols.1.1) (by simp at hcols; exact hcols.1.2)
          (by simp at hcols; exact hcols.2)
        rw [hco] at h
        cases h
      · simp only [calculate_stochastic] at h
        rw [if_neg (show ¬ f.isEmptyDF = true by simpa using hemp)] at h
        rw [if_pos (show (!(f.hasCol "High" && f.hasCol "Low" && f.hasCol "Close")) = true
          by simp [Bool.eq_false_iff.mpr hcols])] at h
        cases h
        rfl

/-- Output frames of calculate_stochastic are non-empty and expose a last
%K cell, given a well-formed input. -/
theorem calc_output_check_ready (md : Frame) (k d : Nat) (g : Frame)
    (hwf : md.wfb = true) (h : calculate_stochastic (some md) k d = Except.ok g) :
    g.isEmptyDF = false ∧ (last_k_value g).isSome = true := by
  have hemp : md.isEmptyDF = false := by
    by_cases hc : md.isEmptyDF = true
    · simp [calculate_stochastic, hc] at h
    · simpa using hc
  have hnr : md.nrows ≠ 0 := by
    intro h0
    rw [Frame.isEmptyDF, h0] at hemp
    simp at hemp
  obtain ⟨hn, hwfg, hcne, hk2, hd2, hpres, kv, hkv, hkvlen⟩ :=
    calculate_stochastic_shape md k d g hwf h
  constructor
  · apply isEmptyDF_eq_false g hcne
    rw [hn]
    exact hnr
  · have hkvne : kv ≠ [] := by
      intro h0
      rw [h0] at hkvlen
      exact hnr hkvlen.symm
    simp [last_k_value, hkv, List.getLast?_isSome, hkvne]

/-- The evaluator terminates normally on any list of check-ready frames. -/
theorem check_isSome_of (d : List (String × Frame))
    (h : ∀ p ∈ d, p.2.isEmptyDF = false ∧ (last_k_value p.2).isSome = true) :
    (check_last_candle_condition d).isSome = true := by
  rw [check_last_candle_eq d (fun p hp _ => (h p hp).2)]
  rfl

/-- C3: when an interval of a symbol fails with a ValueError (the class the
fetch and computation steps of this repository raise) after the earlier
intervals succeeded, the remaining intervals of that symbol are skipped (the
loop result does not depend on them), no chart event is produced for that
symbol and the evaluator is never consulted, and the whole run over any
surrounding symbol list equals the run with the failed symbol removed. -/
theorem run_fail_fast (fetch : FetchFn) (args : Args) (ivs1 ivs2 : List String)
    (iv s : String) (pre post : List String) (e : Err)
    (h1 : ∀ iv2 ∈ ivs1, ∃ g, fetch_and_compute fetch args s iv2 = Except.ok g)
    (h2 : fetch_and_compute fetch args s iv = Except.error e)
    (hve : e.isValueError = true) :
    process_symbol fetch args (ivs1 ++ iv :: ivs2) s = Except.ok [] ∧
    process_intervals fetch args s (ivs1 ++ iv :: ivs2) [] =
      process_intervals fetch args s (ivs1 ++ [iv]) [] ∧
    run_symbols fetch args (ivs1 ++ iv :: ivs2) (pre ++ s :: post) =
      run_symbols fetch args (ivs1 ++ iv :: ivs2) (pre ++ post) := by
  obtain ⟨acc2, hacc2⟩ := process_intervals_append fetch args s ivs1 h1 []
  have habort : ∀ rest2, process_intervals fetch args s (ivs1 ++ iv :: rest2) [] =
      Except.ok (acc2, false) := by
    intro rest2
    rw [hacc2 (iv :: rest2)]
    simp [process_intervals, h2, hve]
  have hps : process_symbol fetch args (ivs1 ++ iv :: ivs2) s = Except.ok [] := by
    simp [process_symbol, habort ivs2]
  refine ⟨hps, ?_, ?_⟩
  · rw [habort ivs2, habort []]
  · induction pre with
    | nil =>
      cases hr : run_symbols fetch args (ivs1 ++ iv :: ivs2) post with
      | error e2 => simp [run_symbols, hps, hr]
      | ok evs => simp [run_symbols, hps, hr]
    | cons p pre ih =>
      cases hp : process_symbol fetch args (ivs1 ++ iv :: ivs2) p with
      | error e2 => simp [run_symbols, hp]
      | ok evs => simp [run_symbols, hp, ih]

/-- C3 witness: the fail-fast theorem applied to a provider that reports a
data-unavailable ValueError for the single configured interval. -/
theorem run_fail_fast_witness :
    process_symbol (fun _ _ _ => Except.error ⟨true, "No data fetched for the given symbol."⟩)
      ⟨"A,B", "1d", "1h", 14, 3, false, false⟩ ["1h"] "A" = Except.ok [] ∧
    process_intervals (fun _ _ _ => Except.error ⟨true, "No data fetched for the given symbol."⟩)
      ⟨"A,B", "1d", "1h", 14, 3, false, false⟩ "A" ["1h"] [] =
      process_intervals (fun _ _ _ => Except.error ⟨true, "No data fetched for the given symbol."⟩)
        ⟨"A,B", "1d", "1h", 14, 3, false, false⟩ "A" ["1h"] [] ∧
    run_symbols (fun _ _ _ => Except.error ⟨true, "No data fetched for the given symbol."⟩)
      ⟨"A,B", "1d", "1h", 14, 3, false, false⟩ ["1h"] ("A" :: ["B"]) =
      run_symbols (fun _ _ _ => Except.error ⟨true, "No data fetched for the given symbol."⟩)
        ⟨"A,B", "1d", "1h", 14, 3, false, false⟩ ["1h"] ["B"] :=
  run_fail_fast (fun _ _ _ => Except.error ⟨true, "No data fetched for the given symbol."⟩)
    ⟨"A,B", "1d", "1h", 14, 3, false, false⟩ [] [] "1h" "A" [] ["B"]
    ⟨true, "No data fetched for the given symbol."⟩
    (by simp) rfl rfl

/-- C5: for a symbol whose configured (non-empty) interval list is processed
in full without error, the evaluator is total on the collected mapping, and a
chart event is produced exactly when the render-unconditionally flag is set or
the evaluator answers true; when neither holds no chart event is produced. -/
theorem run_renders_iff (fetch : FetchFn) (args : Args) (ivs : List String)
    (s : String) (d : List (String × Frame))
    (hwf : ∀ sym p iv f, fetch sym p iv = Except.ok f → f.wfb = true)
    (hivs : ivs ≠ [])
    (hok : process_intervals fetch args s ivs [] = Except.ok (d, true)) :
    (check_last_candle_condition d).isSome = true ∧
    (args.plot_all = true ∨ check_last_candle_condition d = some true →
      process_symbol fetch args ivs s = Except.ok [⟨s, d, args.save_html⟩]) ∧
    (args.plot_all = false → check_last_candle_condition d = some false →
      process_symbol fetch args ivs s = Except.ok []) := by
  have hentry : ∀ p ∈ d, p.2.isEmptyDF = false ∧ (last_k_value p.2).isSome = true := by
    intro p hp
    rcases process_intervals_entries fetch args s ivs [] d true hok p hp with hin | ⟨md, hm, hc⟩
    · cases hin
    · exact calc_output_check_ready md args.k_window args.d_window p.2
        (hwf s args.period p.1 md hm) hc
  have hsome := check_isSome_of d hentry
  have hdne : d ≠ [] := by
    have hlen := process_intervals_ok_length fetch args s ivs [] d hok
    intro h0
    rw [h0] at hlen
    simp at hlen
    exact hivs (List.length_eq_zero.mp hlen.symm)
  have hde : d.isEmpty = false := by
    cases d with
    | nil => exact absurd rfl hdne
    | cons a l => rfl
  refine ⟨hsome, ?_, ?_⟩
  · intro hcond
    by_cases hp : args.plot_all = true
    · simp [process_symbol, hok, hde, hp]
    · rcases hcond with hp2 | hc
      · exact absurd hp2 hp
      · simp [process_symbol, hok, hde, hp, hc]
  · intro hp hc
    simp [process_symbol, hok, hde, hp, hc]

unseal Rat.inv Rat.mul Rat.add Rat.sub in
/-- C5 witness: the render-decision theorem applied to a provider returning a
concrete one-bar frame whose %K is 100, with the render-unconditionally flag
off, so the chart event is forced by the evaluator. -/
theorem run_renders_iff_witness :
    (check_last_candle_condition
        [("1h", ⟨[("High", [some 2]), ("Low", [some 0]), ("Close", [some 2]),
          ("%K", [some 100]), ("%D", [some 100])]⟩)]).isSome = true ∧
    ((⟨"A", "1d", "1h", 1, 1, false, false⟩ : Args).plot_all = true ∨
      check_last_candle_condition
        [("1h", ⟨[("High", [some 2]), ("Low", [some 0]), ("Close", [some 2]),
          ("%K", [some 100]), ("%D", [some 100])]⟩)] = some true →
      process_symbol
        (fun _ _ _ => Except.ok ⟨[("High", [some 2]), ("Low", [some 0]), ("Close", [some 2])]⟩)
        ⟨"A", "1d", "1h", 1, 1, false, false⟩ ["1h"] "A" =
        Except.ok [⟨"A", [("1h", ⟨[("High", [some 2]), ("Low", [some 0]), ("Close", [some 2]),
          ("%K", [some 100]), ("%D", [some 100])]⟩)],
          (⟨"A", "1d", "1h", 1, 1, false, false⟩ : Args).save_html⟩]) ∧
    ((⟨"A", "1d", "1h", 1, 1, false, false⟩ : Args).plot_all = false →
      check_last_candle_condition
        [("1h", ⟨[("High", [some 2]), ("Low", [some 0]), ("Close", [some 2]),
          ("%K", [some 100]), ("%D", [some 100])]⟩)] = some false →
      process_symbol
        (fun _ _ _ => Except.ok ⟨[("High", [some 2]), ("Low", [some 0]), ("Close", [some 2])]⟩)
        ⟨"A", "1d", "1h", 1, 1, false, false⟩ ["1h"] "A" = Except.ok []) :=
  run_renders_iff
    (fun _ _ _ => Except.ok ⟨[("High", [some 2]), ("Low", [some 0]), ("Close", [some 2])]⟩)
    ⟨"A", "1d", "1h", 1, 1, false, false⟩ ["1h"] "A"
    [("1h", ⟨[("High", [some 2]), ("Low", [some 0]), ("Close", [some 2]),
      ("%K", [some 100]), ("%D", [some 100])]⟩)]
    (fun sym p iv f h => by
      cases h
      rfl)
    (by simp)
    rfl

/-- C6 counterexample: a provider failure of a non-ValueError class (a
transport error) on the first symbol propagates out of the whole run — the
second symbol is never processed — so a failure of an arbitrary kind can
crash the run. -/
theorem run_crash_cex :
    run_symbols (fun _ _ _ => Except.error ⟨false, "transport failure"⟩)
      ⟨"A,B", "1d", "1h", 14, 3, false, false⟩ ["1h"] ["A", "B"] =
      Except.error ⟨false, "transport failure"⟩ ∧
    (⟨false, "transport failure"⟩ : Err).isValueError = false :=
  ⟨rfl, rfl⟩

/-- C6 (corrected): only ValueError failures (the data-unavailable and
input-validation classes) are caught: when every provider error is a
ValueError, the run reports the failure, skips the symbol and finishes
normally for every symbol list; the counterexample shows a non-ValueError
failure propagating instead. -/
theorem run_no_crash_on_valueerror (fetch : FetchFn) (args : Args)
    (ivs : List String) (syms : List String)
    (hve : ∀ s p iv e, fetch s p iv = Except.error e → e.isValueError = true)
    (hwf : ∀ s p iv f, fetch s p iv = Except.ok f → f.wfb = true) :
    ∃ evs, run_symbols fetch args ivs syms = Except.ok evs := by
  have hpi : ∀ (s : String) (ivs2 : List String) (acc : List (String × Frame)),
      ∃ res, process_intervals fetch args s ivs2 acc = Except.ok res := by
    intro s ivs2
    induction ivs2 with
    | nil =>
      intro acc
      exact ⟨(acc, true), rfl⟩
    | cons iv rest ih =>
      intro acc
      cases hfc : fetch_and_compute fetch args s iv with
      | error e =>
        have hvee : e.isValueError = true := by
          unfold fetch_and_compute at hfc
          cases hm : fetch s args.period iv with
          | error e2 =>
            rw [hm] at hfc
            cases hfc
            exact hve s args.period iv _ hm
          | ok md =>
            rw [hm] at hfc
            exact calculate_stochastic_error_ve (some md) args.k_window args.d_window e hfc
        refine ⟨(acc, false), ?_⟩
        simp [process_intervals, hfc, hvee]
      | ok sd =>
        obtain ⟨res, hres⟩ := ih (acc ++ [(iv, sd)])
        refine ⟨res, ?_⟩
        simp [process_intervals, hfc, hres]
  have hps : ∀ s : String, ∃ evs, process_symbol fetch args ivs s = Except.ok evs := by
    intro s
    obtain ⟨⟨d, flag⟩, hres⟩ := hpi s ivs []
    cases flag with
    | false =>
      refine ⟨[], ?_⟩
      simp [process_symbol, hres]
    | true =>
      by_cases hde : d.isEmpty = true
      · refine ⟨[], ?_⟩
        simp [process_symbol, hres, hde]
      · have hentry : ∀ p ∈ d, p.2.isEmptyDF = false ∧
            (last_k_value p.2).isSome = true := by
          intro p hp
          rcases process_intervals_entries fetch args s ivs [] d true hres p hp with
            hin | ⟨md, hm, hc⟩
          · cases hin
          · exact calc_output_check_ready md args.k_window args.d_window p.2
              (hwf s args.period p.1 md hm) hc
        have hsome := check_isSome_of d hentry
        obtain ⟨b, hb⟩ := Option.isSome_iff_exists.mp hsome
        by_cases hp : args.plot_all = true
        · exact ⟨[⟨s, d, args.save_html⟩], by simp [process_symbol, hres, hde, hp]⟩
        · cases b with
          | true => exact ⟨[⟨s, d, args.save_html⟩],
              by simp [process_symbol, hres, hde, hp, hb]⟩
          | false => exact ⟨[], by simp [process_symbol, hres, hde, hp, hb]⟩
  induction syms with
  | nil => exact ⟨[], rfl⟩
  | cons s rest ih =>
    obtain ⟨evs1, h1⟩ := hps s
    obtain ⟨evs2, h2⟩ := ih
    exact ⟨evs1 ++ evs2, by simp [run_symbols, h1, h2]⟩

/-- C6 witness: the no-crash theorem applied to a provider that always
reports the data-unavailable ValueError; both symbols are processed and the
run finishes normally. -/
theorem run_no_crash_on_valueerror_witness :
    ∃ evs, run_symbols
      (fun _ _ _ => Except.error ⟨true, "No data fetched for the given symbol."⟩)
      ⟨"A,B", "1d", "1h", 14, 3, false, false⟩ ["1h"] ["A", "B"] = Except.ok evs :=
  run_no_crash_on_valueerror
    (fun _ _ _ => Except.error ⟨true, "No data fetched for the given symbol."⟩)
    ⟨"A,B", "1d", "1h", 14, 3, false, false⟩ ["1h"] ["A", "B"]
    (fun s p iv e h => by
      cases h
      rfl)
    (fun s p iv f h => by cases h)

/-- C8: the output step of generate_stochastic_chart evaluated at the repo
test inputs: with the save flag the HTML artifact is written to the bare file
name derived from the symbol (slashes replaced by underscores) — a path
relative to the current working directory, with no output-directory parameter
anywhere in the signature — and with no destination flag it falls back to the
interactive display; an empty mapping draws nothing. -/
theorem generate_chart_output_eval :
    generate_stochastic_chart "BTC/USD" [("1h", ⟨[("%K", [some 80])]⟩)] true =
      some (ChartOutput.savedFile "BTC_USD_stochastic_chart.html") ∧
    generate_stochastic_chart "BTC/USD" [("1h", ⟨[("%K", [some 80])]⟩)] false =
      some ChartOutput.shown ∧
    generate_stochastic_chart "BTC/USD" ([] : List (String × Frame)) true = none ∧
    ("BTC_USD_stochastic_chart.html".data.contains '/') = false := by
  refine ⟨by decide, by decide, by decide, by decide⟩

end StochStrat
